import Mathlib

/-!
Verification of the Personalization & Spaced-Repetition Engine
(`src/co/services/personalization.py` of the curriculum-orchestration
backend).

Shallow embedding conventions:

* Timestamps (`datetime`) are modelled as integers counting days
  (`ℤ`): the engine only ever adds whole-day `timedelta(days=n)`
  offsets to timestamps and compares them, and the single place that
  inspects a difference (`(utcnow() - created_at).days` in the novelty
  signal) floors to whole days.  Every call takes the current time
  `now` explicitly (the service calls `datetime.utcnow()`).
* Python `float` arithmetic on the EMA values is modelled by exact
  rationals (`ℚ`); the claims checked here are robust to the
  sub-`1e-13` rounding differences on the concrete values involved.
* Python `int` is `ℤ`; `int(x)` truncation toward zero is `pyInt`.
* Database tables are lists of rows in insertion order.  A SQLAlchemy
  `select ... where`/`scalar_one_or_none` fetch is `List.find?` (the
  tables carry unique constraints on the queried keys), mutation of a
  fetched ORM row is `updateFirstL`, `db.delete` is `removeFirst`, and
  `order_by` is `stableSort` (a deterministic stable sort; ties keep
  insertion order, matching Python's stable `list.sort`).
* Calls to the external problem bank are modelled by passing the
  response (`candidates0`, `topics`) as an explicit argument.
* Fallible steps (Python list indexing, which may raise `IndexError`)
  make the whole operation return `Option`.
-/

/-- Python `int()` truncation toward zero on a rational. -/
def pyInt (q : ℚ) : ℤ :=
  if 0 ≤ q then ⌊q⌋ else ⌈q⌉

/-- Python list indexing `l[i]` (negative indices count from the end;
out-of-range indexing raises, i.e. returns `none`). -/
def pyIndex (l : List ℤ) (i : ℤ) : Option ℤ :=
  let j := if i < 0 then i + l.length else i
  if 0 ≤ j then l.get? j.toNat else none

/-- Insert `x` into `l` in front of the first element `y` with
`le x y`; used to model a stable sort. -/
def insertLe (le : α → α → Bool) (x : α) : List α → List α
  | [] => [x]
  | y :: ys => if le x y then x :: y :: ys else y :: insertLe le x ys

/-- Deterministic stable sort (insertion sort): for a total preorder
`le`, elements that compare equal keep their original relative order.
This is the semantics of Python's stable `list.sort` and the
deterministic reading of SQL `ORDER BY` used by the spec. -/
def stableSort (le : α → α → Bool) : List α → List α
  | [] => []
  | x :: xs => insertLe le x (stableSort le xs)

/-- Replace the first element satisfying `p` by its image under `f`
(mutation of the single row returned by `scalar_one_or_none`). -/
def updateFirstL (p : α → Bool) (f : α → α) : List α → List α
  | [] => []
  | x :: xs => if p x then f x :: xs else x :: updateFirstL p f xs

/-- Remove the first element satisfying `p` (the row handed to
`db.delete`). -/
def removeFirst (p : α → Bool) : List α → List α
  | [] => []
  | x :: xs => if p x then xs else x :: removeFirst p xs

/-- Row of the `mastery` table (`co.db.models.Mastery`): primary key
`(user_id, key_type, key_id)`. -/
structure Mastery where
  user_id : String
  key_type : String
  key_id : String
  score : ℤ
  ema : ℚ
  updated_at : ℤ
deriving DecidableEq

/-- Row of the `submissions` table (the columns the engine reads). -/
structure Submission where
  user_id : String
  problem_id : String
  status : String
  created_at : ℤ
deriving DecidableEq

/-- Row of the `review_queue` table (`co.db.models.ReviewQueue`):
unique constraint on `(user_id, problem_id)`.  The surrogate `id` and
`created_at` columns are never read by the engine and are omitted. -/
structure ReviewQueue where
  user_id : String
  problem_id : String
  reason : String
  bucket : ℤ
  next_due_at : ℤ
deriving DecidableEq

/-- A candidate problem as returned by the external problem bank:
a dict with `id` (required by `problem["id"]`) and optional
`topics` / `difficulty` read via `problem.get(..., default)`. -/
structure Problem where
  id : String
  topics : Option (List String)
  difficulty : Option ℤ
deriving DecidableEq

/-- The persistent store visible to the engine: each table as a list
of rows in insertion order. -/
structure DB where
  masteries : List Mastery
  submissions : List Submission
  reviewQueue : List ReviewQueue
deriving DecidableEq

/-- The empty store. -/
def dbEmpty : DB := ⟨[], [], []⟩

/-- The configuration fields of `co.config.Settings` that the engine
reads (personalization weights and the spaced-repetition ladder). -/
structure Settings where
  weight_weakness : ℚ
  weight_novelty : ℚ
  weight_difficulty : ℚ
  weight_recency : ℚ
  review_buckets : List ℤ
deriving DecidableEq

/-- The default configuration values of `co.config.Settings`
(0.4, 0.2, 0.25, 0.15 and ladder [1, 3, 7, 21]). -/
def defaultSettings : Settings :=
  { weight_weakness := 2/5
    weight_novelty := 1/5
    weight_difficulty := 1/4
    weight_recency := 3/20
    review_buckets := [1, 3, 7, 21] }

/-- The `where` clause selecting the mastery row for
`(user_id, "topic", topic)` in `update_mastery`. -/
def masteryKey (user_id topic : String) (m : Mastery) : Bool :=
  m.user_id == user_id && m.key_type == "topic" && m.key_id == topic

/-- One EMA step of `update_mastery` applied to a fetched (or freshly
created) mastery row: `alpha = 0.2`, `new_value = 1.0 if success else
0.0`, `ema' = alpha*new_value + (1-alpha)*ema`,
`score = int(ema'*100)`. -/
def applyEMA (success : Bool) (now : ℤ) (m : Mastery) : Mastery :=
  let alpha : ℚ := 1/5
  let new_value : ℚ := if success then 1 else 0
  let ema := alpha * new_value + (1 - alpha) * m.ema
  { m with ema := ema, score := pyInt (ema * 100), updated_at := now }

/-- The fresh mastery row created by `update_mastery` when no row
exists: defaults `score=50`, `ema=0.5`. -/
def freshMastery (user_id topic : String) (now : ℤ) : Mastery :=
  { user_id := user_id, key_type := "topic", key_id := topic
    score := 50, ema := 1/2, updated_at := now }

/-- Body of the `for topic in topics` loop of
`PersonalizationService.update_mastery`: fetch-or-create the mastery
row for `(user_id, "topic", topic)`, then apply the EMA update to it. -/
def update_one_topic (now : ℤ) (db : DB) (user_id topic : String) (success : Bool) : DB :=
  match db.masteries.find? (masteryKey user_id topic) with
  | some _ =>
      { db with masteries :=
          updateFirstL (masteryKey user_id topic) (applyEMA success now) db.masteries }
  | none =>
      { db with masteries :=
          db.masteries ++ [applyEMA success now (freshMastery user_id topic now)] }

/-- `PersonalizationService.update_mastery`: one EMA update per topic
of the submitted problem.  `topics` is the problem bank's
`get_problem(problem_id).get("topics", [])` response. -/
def update_mastery (now : ℤ) (db : DB) (user_id : String)
    (topics : List String) (success : Bool) : DB :=
  topics.foldl (fun d topic => update_one_topic now d user_id topic success) db

/-- The `where` clause selecting the review-queue row for
`(user_id, problem_id)`. -/
def reviewKey (user_id problem_id : String) (r : ReviewQueue) : Bool :=
  r.user_id == user_id && r.problem_id == problem_id

/-- `PersonalizationService.add_to_review_queue`: if a row for
`(user_id, problem_id)` exists and `reason == "fail"` with
`bucket > 0`, move it one bucket earlier and reschedule it by the
ladder; otherwise, if no row exists, insert a fresh row at bucket 0
due in 1 day (a hardcoded `timedelta(days=1)` in the source). -/
def add_to_review_queue (s : Settings) (now : ℤ) (db : DB)
    (user_id problem_id reason : String) : Option DB :=
  match db.reviewQueue.find? (reviewKey user_id problem_id) with
  | some existing =>
      if reason == "fail" && decide (0 < existing.bucket) then
        let newBucket := max 0 (existing.bucket - 1)
        match pyIndex s.review_buckets newBucket with
        | some days =>
            let f := fun r : ReviewQueue =>
              { r with bucket := newBucket, next_due_at := now + days }
            some { db with reviewQueue :=
                updateFirstL (reviewKey user_id problem_id) f db.reviewQueue }
        | none => none
      else some db
  | none =>
      some { db with reviewQueue := db.reviewQueue ++
          [{ user_id := user_id, problem_id := problem_id, reason := reason
             bucket := 0, next_due_at := now + 1 }] }

/-- `PersonalizationService.mark_review_result`: on success advance
the bucket (deleting the row once past the end of the ladder), on
failure reset to bucket 0; a missing row is created on failure via
`add_to_review_queue` and is a no-op on success. -/
def mark_review_result (s : Settings) (now : ℤ) (db : DB)
    (user_id problem_id : String) (success : Bool) : Option DB :=
  match db.reviewQueue.find? (reviewKey user_id problem_id) with
  | none =>
      if !success then add_to_review_queue s now db user_id problem_id "fail"
      else some db
  | some item =>
      if success then
        let newBucket := item.bucket + 1
        if decide ((s.review_buckets.length : ℤ) ≤ newBucket) then
          some { db with reviewQueue :=
              removeFirst (reviewKey user_id problem_id) db.reviewQueue }
        else
          match pyIndex s.review_buckets newBucket with
          | some days =>
              let f := fun r : ReviewQueue =>
                { r with bucket := newBucket, next_due_at := now + days }
              some { db with reviewQueue :=
                  updateFirstL (reviewKey user_id problem_id) f db.reviewQueue }
          | none => none
      else
        match pyIndex s.review_buckets 0 with
        | some days =>
            let f := fun r : ReviewQueue =>
              { r with bucket := 0, next_due_at := now + days }
            some { db with reviewQueue :=
                updateFirstL (reviewKey user_id problem_id) f db.reviewQueue }
        | none => none

/-- The `where` clause of the due-review queries: rows of this user
that are due (`next_due_at <= utcnow()`). -/
def dueFilter (user_id : String) (now : ℤ) (r : ReviewQueue) : Bool :=
  r.user_id == user_id && decide (r.next_due_at ≤ now)

/-- The due rows of a user ordered ascending by `next_due_at`
(`order_by(ReviewQueue.next_due_at)`; ties keep insertion order). -/
def dueSorted (db : DB) (user_id : String) (now : ℤ) : List ReviewQueue :=
  stableSort (fun a b => decide (a.next_due_at ≤ b.next_due_at))
    (db.reviewQueue.filter (dueFilter user_id now))

/-- `PersonalizationService._get_due_review`: the earliest-due review
row of the user, if any (`limit(1)` + `scalar_one_or_none`).  The
`subject` argument is accepted and ignored, as in the source. -/
def _get_due_review (db : DB) (user_id subject : String) (now : ℤ) : Option String :=
  ((dueSorted db user_id now).head?).map (fun r => r.problem_id)

/-- `PersonalizationService.get_due_reviews`: due rows ordered
ascending by `next_due_at`, first `limit` of them. -/
def get_due_reviews (db : DB) (user_id : String) (now : ℤ) (limit : Nat) : List ReviewQueue :=
  (dueSorted db user_id now).take limit

/-- The user's latest submission for a problem
(`order_by(created_at.desc()).limit(1)`). -/
def latest_submission (db : DB) (user_id problem_id : String) : Option Submission :=
  (stableSort (fun a b => decide (b.created_at ≤ a.created_at))
    (db.submissions.filter
      (fun sub => sub.user_id == user_id && sub.problem_id == problem_id))).head?

/-- `PersonalizationService._calculate_novelty_score`. -/
def _calculate_novelty_score (db : DB) (now : ℤ) (user_id problem_id : String) : ℚ :=
  match latest_submission db user_id problem_id with
  | none => 1
  | some last =>
      let days_since : ℤ := now - last.created_at
      if 30 < days_since then 1
      else if 7 < days_since then 7/10
      else if 1 < days_since then 3/10
      else 0

/-- The user's most recent submissions
(`order_by(created_at.desc()).limit(limit)`). -/
def recent_submissions (db : DB) (user_id : String) (limit : Nat) : List Submission :=
  (stableSort (fun a b => decide (b.created_at ≤ a.created_at))
    (db.submissions.filter (fun sub => sub.user_id == user_id))).take limit

/-- `PersonalizationService._calculate_difficulty_score`. -/
def _calculate_difficulty_score (db : DB) (user_id : String) (difficulty : ℤ) : ℚ :=
  let recent := recent_submissions db user_id 5
  if recent.isEmpty then
    if 40 ≤ difficulty ∧ difficulty ≤ 60 then 1 else 1/2
  else
    let success_rate : ℚ :=
      (recent.countP (fun sub => sub.status == "passed") : ℚ) / (recent.length : ℚ)
    if 4/5 < success_rate then
      if 60 < difficulty then 1 else 1/2
    else if success_rate < 2/5 then
      if difficulty < 40 then 1 else 3/10
    else
      if 40 ≤ difficulty ∧ difficulty ≤ 60 then 1 else 3/5

/-- `PersonalizationService._calculate_weakness_score`. -/
def _calculate_weakness_score (db : DB) (user_id : String) (topics : List String) : ℚ :=
  if topics.isEmpty then 1/2
  else
    let masteries := db.masteries.filter
      (fun m => m.user_id == user_id && m.key_type == "topic" && topics.contains m.key_id)
    if masteries.isEmpty then 1
    else
      let avg_mastery : ℚ :=
        ((masteries.map (fun m => (m.score : ℚ))).sum) / (masteries.length : ℚ)
      1 - avg_mastery / 100

/-- `PersonalizationService._calculate_recency_score`: the placeholder
constant 0.5 of the source. -/
def _calculate_recency_score (db : DB) (user_id : String) (topics : List String) : ℚ :=
  1/2

/-- `PersonalizationService._score_problem`: weighted sum of the four
signals. -/
def _score_problem (s : Settings) (now : ℤ) (db : DB) (user_id : String)
    (problem : Problem) : ℚ :=
  let topics := problem.topics.getD []
  s.weight_weakness * _calculate_weakness_score db user_id topics
    + s.weight_novelty * _calculate_novelty_score db now user_id problem.id
    + s.weight_difficulty * _calculate_difficulty_score db user_id (problem.difficulty.getD 50)
    + s.weight_recency * _calculate_recency_score db user_id topics

/-- The fresh-candidate part of `get_next_problem` (lines after the
due-review check): filter the pool by `exclude`, score and stably sort
descending by score, return the top one; the final fallback reads the
(already filtered) `candidates` list. -/
def freshRecommendation (s : Settings) (now : ℤ) (db : DB) (user_id : String)
    (candidates0 : List Problem) (exclude : List String) : Option String :=
  let candidates := candidates0.filter (fun p => !(exclude.contains p.id))
  let scored := candidates.map (fun c => (_score_problem s now db user_id c, c))
  let sorted := stableSort (fun a b => decide (b.1 ≤ a.1)) scored
  match sorted with
  | top :: _ => some top.2.id
  | [] =>
      match candidates with
      | c :: _ => some c.id
      | [] => none

/-- `PersonalizationService.get_next_problem`.  `candidates0` is the
problem bank's `get_problems_by_subject(subject, track_id)` response,
passed explicitly; `exclude` is the caller's exclusion list (`None`
maps to `[]`, as in `exclude = exclude or []`).  The Python guard
`if review_problem and review_problem not in exclude` treats the
empty-string problem id as falsy, which the `!= ""` test mirrors. -/
def get_next_problem (s : Settings) (now : ℤ) (db : DB) (user_id subject : String)
    (candidates0 : List Problem) (exclude : List String) : Option String :=
  match _get_due_review db user_id subject now with
  | some review_problem =>
      if review_problem != "" && !(exclude.contains review_problem) then
        some review_problem
      else freshRecommendation s now db user_id candidates0 exclude
  | none => freshRecommendation s now db user_id candidates0 exclude

/-- One `update_mastery` invocation, for stating properties of call
sequences. -/
structure MCall where
  now : ℤ
  user_id : String
  topics : List String
  success : Bool

/-- Apply a sequence of `update_mastery` calls to a store. -/
def applyCalls (calls : List MCall) (db : DB) : DB :=
  calls.foldl (fun d c => update_mastery c.now d c.user_id c.topics c.success) db

/-! ### Library lemmas about the list helpers -/

theorem insertLe_perm (le : α → α → Bool) (x : α) (l : List α) :
    (insertLe le x l).Perm (x :: l) := by
  induction l with
  | nil => simp [insertLe]
  | cons y ys ih =>
      by_cases h : le x y = true
      · simp [insertLe, h]
      · simp only [insertLe, h, if_false, Bool.false_eq_true, if_neg, not_false_iff]
        exact (ih.cons y).trans (List.Perm.swap x y ys)

theorem stableSort_perm (le : α → α → Bool) (l : List α) :
    (stableSort le l).Perm l := by
  induction l with
  | nil => simp [stableSort]
  | cons x xs ih => exact (insertLe_perm le x (stableSort le xs)).trans (ih.cons x)

theorem mem_stableSort (le : α → α → Bool) (l : List α) (a : α) :
    a ∈ stableSort le l ↔ a ∈ l :=
  (stableSort_perm le l).mem_iff

theorem stableSort_eq_nil_iff (le : α → α → Bool) (l : List α) :
    stableSort le l = [] ↔ l = [] := by
  constructor
  · intro h
    have := (stableSort_perm le l).length_eq
    rw [h] at this
    exact List.eq_nil_of_length_eq_zero this.symm
  · intro h
    subst h
    simp [stableSort]

theorem pairwise_insertLe {le : α → α → Bool}
    (total : ∀ a b, le a b = true ∨ le b a = true)
    (ltrans : ∀ a b c, le a b = true → le b c = true → le a c = true)
    (x : α) {l : List α} (hl : l.Pairwise (fun a b => le a b = true)) :
    (insertLe le x l).Pairwise (fun a b => le a b = true) := by
  induction l with
  | nil => simp [insertLe]
  | cons y ys ih =>
      rcases List.pairwise_cons.mp hl with ⟨hy, hys⟩
      by_cases h : le x y = true
      · rw [insertLe, if_pos h]
        refine List.pairwise_cons.mpr ⟨?_, hl⟩
        intro z hz
        rcases List.mem_cons.mp hz with hz | hz
        · exact hz ▸ h
        · exact ltrans x y z h (hy z hz)
      · rw [insertLe, if_neg h]
        refine List.pairwise_cons.mpr ⟨?_, ih hys⟩
        intro z hz
        have hz' := (insertLe_perm le x ys).mem_iff.mp hz
        rcases List.mem_cons.mp hz' with hz' | hz'
        · rw [hz']
          exact (total x y).resolve_left h
        · exact hy z hz'

theorem stableSort_pairwise {le : α → α → Bool}
    (total : ∀ a b, le a b = true ∨ le b a = true)
    (ltrans : ∀ a b c, le a b = true → le b c = true → le a c = true)
    (l : List α) :
    (stableSort le l).Pairwise (fun a b => le a b = true) := by
  induction l with
  | nil => simp [stableSort]
  | cons x xs ih => exact pairwise_insertLe total ltrans x ih

theorem find?_updateFirstL_same {p : α → Bool} {f : α → α}
    (hf : ∀ a, p a = true → p (f a) = true) (l : List α) :
    (updateFirstL p f l).find? p = (l.find? p).map f := by
  induction l with
  | nil => rfl
  | cons x xs ih =>
      by_cases h : p x = true
      · rw [updateFirstL, if_pos h, List.find?_cons_of_pos _ (hf x h),
          List.find?_cons_of_pos _ h, Option.map_some']
      · rw [updateFirstL, if_neg h, List.find?_cons_of_neg _ h,
          List.find?_cons_of_neg _ h, ih]

theorem find?_updateFirstL_other {p q : α → Bool} {f : α → α}
    (hq : ∀ a, p a = true → q a = false ∧ q (f a) = false) (l : List α) :
    (updateFirstL p f l).find? q = l.find? q := by
  induction l with
  | nil => rfl
  | cons x xs ih =>
      by_cases h : p x = true
      · rcases hq x h with ⟨h1, h2⟩
        rw [updateFirstL, if_pos h, List.find?_cons_of_neg, List.find?_cons_of_neg]
        · simp [h1]
        · simp [h2]
      · rw [updateFirstL, if_neg h]
        by_cases h2 : q x = true
        · rw [List.find?_cons_of_pos _ h2, List.find?_cons_of_pos _ h2]
        · rw [List.find?_cons_of_neg, List.find?_cons_of_neg, ih] <;> simp [h2]

theorem mem_updateFirstL {p : α → Bool} {f : α → α} {a : α} {l : List α}
    (ha : a ∈ updateFirstL p f l) :
    a ∈ l ∨ ∃ b, b ∈ l ∧ p b = true ∧ a = f b := by
  induction l with
  | nil => simp [updateFirstL] at ha
  | cons x xs ih =>
      by_cases h : p x = true
      · rw [updateFirstL, if_pos h] at ha
        rcases List.mem_cons.mp ha with ha | ha
        · exact Or.inr ⟨x, List.mem_cons_self x xs, h, ha⟩
        · exact Or.inl (List.mem_cons_of_mem x ha)
      · rw [updateFirstL, if_neg h] at ha
        rcases List.mem_cons.mp ha with ha | ha
        · exact Or.inl (ha ▸ List.mem_cons_self x xs)
        · rcases ih ha with hl | ⟨b, hb, hpb, hab⟩
          · exact Or.inl (List.mem_cons_of_mem x hl)
          · exact Or.inr ⟨b, List.mem_cons_of_mem x hb, hpb, hab⟩

theorem find?_removeFirst_of_countP_le_one {p : α → Bool} {l : List α}
    (h : l.countP p ≤ 1) : (removeFirst p l).find? p = none := by
  induction l with
  | nil => rfl
  | cons x xs ih =>
      by_cases hx : p x = true
      · rw [removeFirst, if_pos hx, List.find?_eq_none]
        intro y hy hpy
        have hpos : 0 < xs.countP p := List.countP_pos.mpr ⟨y, hy, hpy⟩
        simp only [List.countP_cons, hx, if_pos] at h
        omega
      · rw [removeFirst, if_neg hx, List.find?_cons_of_neg _ hx]
        apply ih
        simp only [List.countP_cons, hx] at h
        simpa using h

/-! ### Facts about the key predicates and the sort relations -/

theorem reviewKey_iff (u p : String) (r : ReviewQueue) :
    reviewKey u p r = true ↔ r.user_id = u ∧ r.problem_id = p := by
  simp [reviewKey, Bool.and_eq_true, beq_iff_eq]

theorem masteryKey_iff (u t : String) (m : Mastery) :
    masteryKey u t m = true ↔ m.user_id = u ∧ m.key_type = "topic" ∧ m.key_id = t := by
  simp [masteryKey, Bool.and_eq_true, beq_iff_eq, and_assoc]

theorem dueFilter_iff (u : String) (now : ℤ) (r : ReviewQueue) :
    dueFilter u now r = true ↔ r.user_id = u ∧ r.next_due_at ≤ now := by
  simp [dueFilter, Bool.and_eq_true, beq_iff_eq]

theorem pyIndex_of_nonneg {l : List ℤ} {i : ℤ} (h : 0 ≤ i) :
    pyIndex l i = l.get? i.toNat := by
  have h' : ¬ i < 0 := not_lt.mpr h
  simp [pyIndex, h', h]

theorem leDue_total (a b : ReviewQueue) :
    decide (a.next_due_at ≤ b.next_due_at) = true ∨
      decide (b.next_due_at ≤ a.next_due_at) = true := by
  rcases le_total a.next_due_at b.next_due_at with h | h
  · exact Or.inl (decide_eq_true h)
  · exact Or.inr (decide_eq_true h)

theorem leDue_trans (a b c : ReviewQueue)
    (hab : decide (a.next_due_at ≤ b.next_due_at) = true)
    (hbc : decide (b.next_due_at ≤ c.next_due_at) = true) :
    decide (a.next_due_at ≤ c.next_due_at) = true :=
  decide_eq_true (le_trans (of_decide_eq_true hab) (of_decide_eq_true hbc))

theorem dueSorted_pairwise (db : DB) (u : String) (now : ℤ) :
    (dueSorted db u now).Pairwise (fun a b => a.next_due_at ≤ b.next_due_at) := by
  have h := stableSort_pairwise leDue_total leDue_trans
    (db.reviewQueue.filter (dueFilter u now))
  exact h.imp (fun hab => of_decide_eq_true hab)

theorem mem_dueSorted (db : DB) (u : String) (now : ℤ) (r : ReviewQueue) :
    r ∈ dueSorted db u now ↔ r ∈ db.reviewQueue ∧ r.user_id = u ∧ r.next_due_at ≤ now := by
  rw [dueSorted, mem_stableSort, List.mem_filter, dueFilter_iff]

/-! ### C10 -/

/-- C10: `_get_due_review` never reads its `subject` argument — for a
fixed stored state any two subjects give the same result — and
consequently `get_next_problem` (with the candidate pool, an input
from the external catalog, held fixed) recommends the same problem for
any two subjects, so a due review entered under one subject is
returned for a request about another. -/
theorem c10_due_review_subject_independent (db : DB) (u s1 s2 : String) (now : ℤ)
    (s : Settings) (cands : List Problem) (excl : List String) :
    _get_due_review db u s1 now = _get_due_review db u s2 now ∧
    get_next_problem s now db u s1 cands excl = get_next_problem s now db u s2 cands excl :=
  ⟨rfl, rfl⟩

/-! ### C8 -/

/-- C8: `get_due_reviews` returns only rows of the requesting user
with `next_due_at ≤ now`, sorted ascending by `next_due_at`, and at
most `limit` of them. -/
theorem c8_get_due_reviews_due_sorted_bounded (db : DB) (u : String) (now : ℤ) (limit : Nat) :
    (∀ r ∈ get_due_reviews db u now limit, r.user_id = u ∧ r.next_due_at ≤ now) ∧
    (get_due_reviews db u now limit).Pairwise (fun a b => a.next_due_at ≤ b.next_due_at) ∧
    (get_due_reviews db u now limit).length ≤ limit := by
  refine ⟨?_, ?_, ?_⟩
  · intro r hr
    have hr' : r ∈ dueSorted db u now := List.take_subset _ _ hr
    exact ((mem_dueSorted db u now r).mp hr').2
  · exact List.Pairwise.sublist (List.take_sublist _ _) (dueSorted_pairwise db u now)
  · rw [get_due_reviews, List.length_take]
    exact min_le_left _ _

/-- A concrete store for the C8 witness: user `u` has rows due at
days 5, 3 and 9 plus one at day 3 inserted later; another user has an
earlier row that must not leak in. -/
def dbC8 : DB :=
  ⟨[], [],
    [⟨"u", "a", "fail", 0, 5⟩, ⟨"u", "b", "fail", 0, 3⟩, ⟨"u", "c", "fail", 0, 9⟩,
     ⟨"v", "z", "fail", 0, 1⟩, ⟨"u", "d", "fail", 0, 3⟩]⟩

/-- Witness for C8: at `now = 6` with `limit = 2` the first returned
row belongs to `u`, is due, and the result respects the limit. -/
theorem c8_witness :
    (⟨"u", "b", "fail", 0, 3⟩ : ReviewQueue).user_id = "u" ∧
    (⟨"u", "b", "fail", 0, 3⟩ : ReviewQueue).next_due_at ≤ 6 ∧
    (get_due_reviews dbC8 "u" 6 2).length ≤ 2 := by
  have h := c8_get_due_reviews_due_sorted_bounded dbC8 "u" 6 2
  have hm : (⟨"u", "b", "fail", 0, 3⟩ : ReviewQueue) ∈ get_due_reviews dbC8 "u" 6 2 := by
    decide
  exact ⟨(h.1 _ hm).1, (h.1 _ hm).2, h.2.2⟩

/-! ### C6 -/

/-- The review-queue update functions of `mark_review_result` and
`add_to_review_queue` keep the `(user_id, problem_id)` key, so the
`reviewKey` predicate is stable under them. -/
theorem reviewKey_set_bucket (u pid : String) (b t : ℤ) (r : ReviewQueue)
    (h : reviewKey u pid r = true) :
    reviewKey u pid { r with bucket := b, next_due_at := t } = true := h

/-- C6: a success with an existing entry at bucket `k` advances it to
bucket `k+1` with `next_due_at = now + ladder[k+1]` when `k+1 < N`
(`N` the ladder length), deletes the entry (graduation) when
`k+1 = N`, and a success with no existing entry is a no-op that
creates nothing and raises no error. -/
theorem c6_mark_success (s : Settings) (now : ℤ) (db : DB) (u pid : String) :
    (db.reviewQueue.find? (reviewKey u pid) = none →
      mark_review_result s now db u pid true = some db) ∧
    (∀ item, db.reviewQueue.find? (reviewKey u pid) = some item →
      0 ≤ item.bucket →
      ((item.bucket + 1 < (s.review_buckets.length : ℤ) →
        ∃ d db', s.review_buckets.get? (item.bucket + 1).toNat = some d ∧
          mark_review_result s now db u pid true = some db' ∧
          db'.reviewQueue.find? (reviewKey u pid) =
            some { item with bucket := item.bucket + 1, next_due_at := now + d }) ∧
       (item.bucket + 1 = (s.review_buckets.length : ℤ) →
        db.reviewQueue.countP (reviewKey u pid) ≤ 1 →
        ∃ db', mark_review_result s now db u pid true = some db' ∧
          db'.reviewQueue.find? (reviewKey u pid) = none))) := by
  constructor
  · intro h
    simp [mark_review_result, h]
  · intro item hfind hnn
    constructor
    · intro hlt
      have hnn1 : (0:ℤ) ≤ item.bucket + 1 := by omega
      have htn : (item.bucket + 1).toNat < s.review_buckets.length := by omega
      obtain ⟨d, hd⟩ : ∃ d, s.review_buckets.get? (item.bucket + 1).toNat = some d := by
        rw [List.get?_eq_get htn]
        exact ⟨_, rfl⟩
      have hc : ¬ ((s.review_buckets.length : ℤ) ≤ item.bucket + 1) := by omega
      have hmark : mark_review_result s now db u pid true =
          some { db with reviewQueue := updateFirstL (reviewKey u pid) (fun r => { r with bucket := item.bucket + 1, next_due_at := now + d }) db.reviewQueue } := by
        rw [mark_review_result, hfind]
        simp only [decide_eq_true_eq, hc, reduceIte]
        rw [pyIndex_of_nonneg hnn1, hd]
      refine ⟨d, _, hd, hmark, ?_⟩
      rw [find?_updateFirstL_same (fun a ha => reviewKey_set_bucket u pid _ _ a ha), hfind]
      rfl
    · intro heq hcount
      have hc : (s.review_buckets.length : ℤ) ≤ item.bucket + 1 := le_of_eq heq.symm
      have hmark : mark_review_result s now db u pid true =
          some { db with reviewQueue := removeFirst (reviewKey u pid) db.reviewQueue } := by
        rw [mark_review_result, hfind]
        simp only [decide_eq_true_eq, hc, reduceIte]
      refine ⟨_, hmark, ?_⟩
      exact find?_removeFirst_of_countP_le_one hcount

/-- Concrete row and stores for the C6 witness. -/
def rC6a : ReviewQueue := ⟨"u", "p", "fail", 1, 0⟩

/-- Store with one entry at bucket 1 (mid-ladder). -/
def dbC6a : DB := ⟨[], [], [rC6a]⟩

/-- Concrete last-rung row for the C6 witness. -/
def rC6g : ReviewQueue := ⟨"u", "p", "fail", 3, 0⟩

/-- Store with one entry at the last rung of the default ladder. -/
def dbC6g : DB := ⟨[], [], [rC6g]⟩

/-- Witness for C6: under the default ladder [1,3,7,21], a success on
an empty store is a no-op; a success at bucket 1 advances to bucket 2
due at `now + 7`; a success at bucket 3 (last rung) deletes the
entry. -/
theorem c6_witness :
    mark_review_result defaultSettings 0 dbEmpty "u" "p" true = some dbEmpty ∧
    (∃ d db', defaultSettings.review_buckets.get? 2 = some d ∧
      mark_review_result defaultSettings 0 dbC6a "u" "p" true = some db' ∧
      db'.reviewQueue.find? (reviewKey "u" "p") =
        some { rC6a with bucket := 2, next_due_at := 0 + d }) ∧
    (∃ db', mark_review_result defaultSettings 0 dbC6g "u" "p" true = some db' ∧
      db'.reviewQueue.find? (reviewKey "u" "p") = none) := by
  refine ⟨?_, ?_, ?_⟩
  · exact (c6_mark_success defaultSettings 0 dbEmpty "u" "p").1 (by decide)
  · have h := (((c6_mark_success defaultSettings 0 dbC6a "u" "p").2 rC6a (by decide)
      (by decide)).1) (by decide)
    exact h
  · exact (((c6_mark_success defaultSettings 0 dbC6g "u" "p").2 rC6g (by decide)
      (by decide)).2) (by decide) (by decide)

/-! ### C9 -/

/-- C9: for an existing review-queue entry, `add_to_review_queue` with
reason `"fail"` moves the entry from bucket `b > 0` to bucket
`max 0 (b-1) = b-1` and reschedules it to `now + ladder[b-1]`; an
entry already at bucket 0 is left entirely unchanged (the whole store
is returned as-is); and from a bucket above 1 the entry never lands
directly on bucket 0. -/
theorem c9_add_fail_decrements (s : Settings) (now : ℤ) (db : DB) (u pid : String)
    (item : ReviewQueue) (hfind : db.reviewQueue.find? (reviewKey u pid) = some item) :
    (item.bucket = 0 → add_to_review_queue s now db u pid "fail" = some db) ∧
    (0 < item.bucket →
      ∀ d, s.review_buckets.get? (item.bucket - 1).toNat = some d →
      max 0 (item.bucket - 1) = item.bucket - 1 ∧
      ∃ db', add_to_review_queue s now db u pid "fail" = some db' ∧
        db'.reviewQueue.find? (reviewKey u pid) =
          some { item with bucket := item.bucket - 1, next_due_at := now + d } ∧
        (1 < item.bucket → item.bucket - 1 ≠ 0)) := by
  constructor
  · intro h0
    rw [add_to_review_queue, hfind]
    have hc : ¬ (0 < item.bucket) := by omega
    simp [hc]
  · intro hpos d hd
    have hmax : max 0 (item.bucket - 1) = item.bucket - 1 := by omega
    have hnn1 : (0:ℤ) ≤ item.bucket - 1 := by omega
    have hmark : add_to_review_queue s now db u pid "fail" =
        some { db with reviewQueue := updateFirstL (reviewKey u pid) (fun r => { r with bucket := max 0 (item.bucket - 1), next_due_at := now + d }) db.reviewQueue } := by
      rw [add_to_review_queue, hfind]
      simp only [hpos, decide_True, beq_self_eq_true, Bool.and_self, Bool.true_and,
        Bool.and_true, reduceIte]
      rw [hmax, pyIndex_of_nonneg hnn1, hd]
    refine ⟨hmax, _, hmark, ?_, ?_⟩
    · rw [find?_updateFirstL_same (fun a ha => reviewKey_set_bucket u pid _ _ a ha), hfind]
      rw [Option.map_some']
      rw [hmax]
    · intro h1
      omega

/-- Concrete rows and stores for the C9 witness. -/
def rC9a : ReviewQueue := ⟨"u", "p", "fail", 0, 42⟩

/-- Store with one entry already at bucket 0. -/
def dbC9a : DB := ⟨[], [], [rC9a]⟩

/-- Concrete bucket-2 row for the C9 witness. -/
def rC9b : ReviewQueue := ⟨"u", "p", "fail", 2, 42⟩

/-- Store with one entry at bucket 2. -/
def dbC9b : DB := ⟨[], [], [rC9b]⟩

/-- Witness for C9: under the default ladder, a failure on an entry at
bucket 0 leaves the store unchanged, and a failure on an entry at
bucket 2 moves it to bucket 1 due at `now + 3`, not to bucket 0. -/
theorem c9_witness :
    add_to_review_queue defaultSettings 0 dbC9a "u" "p" "fail" = some dbC9a ∧
    (max 0 ((2:ℤ) - 1) = 2 - 1 ∧
      ∃ db', add_to_review_queue defaultSettings 0 dbC9b "u" "p" "fail" = some db' ∧
        db'.reviewQueue.find? (reviewKey "u" "p") =
          some { rC9b with bucket := 2 - 1, next_due_at := 0 + 3 } ∧
        (1 < (2:ℤ) → (2:ℤ) - 1 ≠ 0)) := by
  constructor
  · exact (c9_add_fail_decrements defaultSettings 0 dbC9a "u" "p" rC9a (by decide)).1 (by decide)
  · exact (c9_add_fail_decrements defaultSettings 0 dbC9b "u" "p" rC9b (by decide)).2
      (by decide) 3 (by decide)

/-! ### C1 -/

/-- C1 (amended): `mark_review_result` with `success=False` resets an
existing entry to bucket 0 with `next_due_at = now + ladder[0]`
regardless of the prior bucket; when no entry exists it creates one
with reason `"fail"`, bucket 0 and `next_due_at = now + 1` — a
hardcoded one-day interval, which equals `ladder[0]` days only when
`ladder[0] = 1` (as in the default ladder [1,3,7,21]). -/
theorem c1_mark_fail (s : Settings) (now : ℤ) (db : DB) (u pid : String) :
    (db.reviewQueue.find? (reviewKey u pid) = none →
      mark_review_result s now db u pid false =
        some { db with reviewQueue := db.reviewQueue ++
          [{ user_id := u, problem_id := pid, reason := "fail", bucket := 0, next_due_at := now + 1 }] }) ∧
    (∀ item, db.reviewQueue.find? (reviewKey u pid) = some item →
      ∀ d rest, s.review_buckets = d :: rest →
      ∃ db', mark_review_result s now db u pid false = some db' ∧
        db'.reviewQueue.find? (reviewKey u pid) =
          some { item with bucket := 0, next_due_at := now + d }) := by
  constructor
  · intro h
    rw [mark_review_result, h]
    simp only [Bool.not_false, reduceIte]
    rw [add_to_review_queue, h]
  · intro item hfind d rest hbuckets
    have hpi : pyIndex s.review_buckets 0 = some d := by
      rw [pyIndex_of_nonneg le_rfl, hbuckets]
      rfl
    have hmark : mark_review_result s now db u pid false =
        some { db with reviewQueue := updateFirstL (reviewKey u pid) (fun r => { r with bucket := 0, next_due_at := now + d }) db.reviewQueue } := by
      rw [mark_review_result, hfind]
      simp only [Bool.false_eq_true, reduceIte]
      rw [hpi]
    refine ⟨_, hmark, ?_⟩
    rw [find?_updateFirstL_same (fun a ha => reviewKey_set_bucket u pid _ _ a ha), hfind]
    rfl

/-- Concrete bucket-3 row for the C1 witness. -/
def rC1 : ReviewQueue := ⟨"u", "p", "fail", 3, 42⟩

/-- Store with one entry at bucket 3. -/
def dbC1 : DB := ⟨[], [], [rC1]⟩

/-- Witness for C1: with the default ladder, a failure with no entry
creates the bucket-0 entry due at `now + 1`, and a failure on an entry
at bucket 3 resets it to bucket 0 due at `now + 1 = now + ladder[0]`. -/
theorem c1_witness :
    mark_review_result defaultSettings 10 dbEmpty "u" "p" false =
      some { dbEmpty with reviewQueue := dbEmpty.reviewQueue ++
        [{ user_id := "u", problem_id := "p", reason := "fail", bucket := 0, next_due_at := 10 + 1 }] } ∧
    (∃ db', mark_review_result defaultSettings 10 dbC1 "u" "p" false = some db' ∧
      db'.reviewQueue.find? (reviewKey "u" "p") =
        some { rC1 with bucket := 0, next_due_at := 10 + 1 }) := by
  constructor
  · exact (c1_mark_fail defaultSettings 10 dbEmpty "u" "p").1 (by decide)
  · exact (c1_mark_fail defaultSettings 10 dbC1 "u" "p").2 rC1 (by decide) 1 [3, 7, 21] rfl

/-- A non-default but legal configuration for the C1 counterexample:
ladder [3, 7], so `ladder[0] = 3`. -/
def settingsC1 : Settings :=
  { weight_weakness := 2/5
    weight_novelty := 1/5
    weight_difficulty := 1/4
    weight_recency := 3/20
    review_buckets := [3, 7] }

/-- Counterexample to C1 as stated: with the configured ladder [3, 7]
(`ladder[0] = 3`) and no existing entry, a failure creates the entry
with `next_due_at = now + 1`, not `now + ladder[0] = now + 3`. -/
theorem c1_counterexample :
    (mark_review_result settingsC1 0 dbEmpty "u" "p" false).map
        (fun db => db.reviewQueue.map (fun r => (r.reason, r.bucket, r.next_due_at)))
      = some [("fail", 0, 1)] ∧
    settingsC1.review_buckets.get? 0 = some 3 ∧
    (1 : ℤ) ≠ 0 + 3 := by
  refine ⟨by decide, by decide, by decide⟩

/-! ### C2 -/

/-- C2 (amended): whenever some review-queue entry of the user is due,
`_get_due_review` returns the problem id of the earliest-due such
entry `re` (ties broken by insertion order), and if that id is
non-empty — the Python guard `if review_problem` treats the empty
string as falsy — and not in the exclusion set, `get_next_problem`
returns it immediately, for every candidate pool whatsoever, so the
candidate scores are never consulted. -/
theorem c2_due_review_precedence (s : Settings) (now : ℤ) (db : DB)
    (u subj : String) (cands : List Problem) (exclude : List String)
    (r : ReviewQueue) (hr : r ∈ db.reviewQueue) (hu : r.user_id = u)
    (hdue : r.next_due_at ≤ now) :
    ∃ re, re ∈ db.reviewQueue ∧ re.user_id = u ∧ re.next_due_at ≤ now ∧
      (∀ q ∈ db.reviewQueue, q.user_id = u → q.next_due_at ≤ now →
        re.next_due_at ≤ q.next_due_at) ∧
      _get_due_review db u subj now = some re.problem_id ∧
      (re.problem_id ≠ "" → re.problem_id ∉ exclude →
        get_next_problem s now db u subj cands exclude = some re.problem_id) := by
  have hmem : r ∈ dueSorted db u now := (mem_dueSorted db u now r).mpr ⟨hr, hu, hdue⟩
  have hne : dueSorted db u now ≠ [] := List.ne_nil_of_mem hmem
  obtain ⟨re, rest, hds⟩ := List.exists_cons_of_ne_nil hne
  have hrem : re ∈ dueSorted db u now := by
    rw [hds]
    exact List.mem_cons_self re rest
  obtain ⟨hre_mem, hre_u, hre_due⟩ := (mem_dueSorted db u now re).mp hrem
  have hgd : _get_due_review db u subj now = some re.problem_id := by
    rw [_get_due_review, hds]
    rfl
  refine ⟨re, hre_mem, hre_u, hre_due, ?_, hgd, ?_⟩
  · intro q hq hqu hqdue
    have hqmem : q ∈ dueSorted db u now := (mem_dueSorted db u now q).mpr ⟨hq, hqu, hqdue⟩
    rw [hds] at hqmem
    rcases List.mem_cons.mp hqmem with hq1 | hq1
    · rw [hq1]
    · have hpw := dueSorted_pairwise db u now
      rw [hds] at hpw
      exact (List.pairwise_cons.mp hpw).1 q hq1
  · intro hne' hnex
    have h1 : (re.problem_id != "") = true := bne_iff_ne.mpr hne'
    have h2 : exclude.contains re.problem_id = false := by simpa using hnex
    rw [get_next_problem, hgd]
    simp only [h1, h2, Bool.not_false, Bool.and_self, reduceIte]

/-- Store for the C2 witness: one due entry for user `u`. -/
def dbC2w : DB := ⟨[], [], [⟨"u", "p9", "fail", 0, 5⟩]⟩

/-- Witness for C2: at `now = 10`, user `u` with one entry due at day
5, an unrelated exclusion list and an arbitrary candidate pool; the
entry is returned. -/
theorem c2_witness :
    ∃ re, re ∈ dbC2w.reviewQueue ∧ re.user_id = "u" ∧ re.next_due_at ≤ 10 ∧
      (∀ q ∈ dbC2w.reviewQueue, q.user_id = "u" → q.next_due_at ≤ 10 →
        re.next_due_at ≤ q.next_due_at) ∧
      _get_due_review dbC2w "u" "algebra" 10 = some re.problem_id ∧
      (re.problem_id ≠ "" → re.problem_id ∉ ["other"] →
        get_next_problem defaultSettings 10 dbC2w "u" "algebra"
          [⟨"freshCandidate", none, none⟩] ["other"] = some re.problem_id) :=
  c2_due_review_precedence defaultSettings 10 dbC2w "u" "algebra"
    [⟨"freshCandidate", none, none⟩] ["other"] ⟨"u", "p9", "fail", 0, 5⟩
    (by decide) (by decide) (by decide)

/-- Store for the C2 counterexample: the earliest-due (only) entry has
the empty string as its problem id. -/
def dbC2 : DB := ⟨[], [], [⟨"u", "", "fail", 0, 0⟩]⟩

/-- Counterexample to C2 as stated: the earliest-due entry (problem id
`""`) is due and not excluded, yet `get_next_problem` skips it — the
Python guard `if review_problem` is falsy on the empty string — and
returns the scored fresh candidate instead. -/
theorem c2_counterexample :
    _get_due_review dbC2 "u" "algebra" 10 = some "" ∧
    "" ∉ ([] : List String) ∧
    get_next_problem defaultSettings 10 dbC2 "u" "algebra"
      [⟨"c1", none, none⟩] [] = some "c1" ∧
    (some "c1" : Option String) ≠ some "" := by
  refine ⟨by decide, by decide, by decide, by decide⟩

/-! ### C4 -/

/-- The fresh-candidate path returns `none` exactly when the filtered
candidate list is empty: the final `candidates[0]` fallback of
`get_next_problem` reads the already-filtered list, and whenever that
list is non-empty the scored branch has already returned. -/
theorem freshRecommendation_eq_none_iff (s : Settings) (now : ℤ) (db : DB)
    (u : String) (cands : List Problem) (exclude : List String) :
    freshRecommendation s now db u cands exclude = none ↔
      cands.filter (fun p => !(exclude.contains p.id)) = [] := by
  cases hf : cands.filter (fun p => !(exclude.contains p.id)) with
  | nil =>
      simp only [freshRecommendation, hf, List.map_nil, stableSort]
  | cons c cs =>
      have hs : stableSort (fun a b : ℚ × Problem => decide (b.1 ≤ a.1))
          ((c :: cs).map (fun x => (_score_problem s now db u x, x))) ≠ [] := by
        rw [Ne, stableSort_eq_nil_iff]
        simp
      obtain ⟨top, rest, htop⟩ := List.exists_cons_of_ne_nil hs
      simp only [freshRecommendation, hf, htop]
      simp

/-- C4 (amended): when no due review applies (none exists, or the
returned id is empty or excluded), `get_next_problem` signals "no
recommendation available" (`none`) exactly when the exclusion filter
leaves no candidate; in particular, when the fetched pool is non-empty
but every candidate is excluded, the result is `none` — the final
fallback reads the filtered list, never the unfiltered pool. -/
theorem c4_no_candidates_none (s : Settings) (now : ℤ) (db : DB) (u subj : String)
    (cands : List Problem) (exclude : List String)
    (hnr : ∀ p, _get_due_review db u subj now = some p → p = "" ∨ p ∈ exclude) :
    (get_next_problem s now db u subj cands exclude = none ↔
      cands.filter (fun p => !(exclude.contains p.id)) = []) := by
  have hfresh : get_next_problem s now db u subj cands exclude =
      freshRecommendation s now db u cands exclude := by
    rw [get_next_problem]
    cases h : _get_due_review db u subj now with
    | none => rfl
    | some p =>
        rcases hnr p h with hp | hp
        · have h1 : (p != "") = false := by
            rw [hp]
            rfl
          simp only [h1, Bool.false_and, Bool.false_eq_true, reduceIte]
        · have h2 : exclude.contains p = true := by simpa using hp
          simp only [h2, Bool.not_true, Bool.and_false, Bool.false_eq_true, reduceIte]
  rw [hfresh, freshRecommendation_eq_none_iff]

/-- Store for the C4 witness: the only due entry is excluded, and the
only candidate is excluded as well. -/
def dbC4w : DB := ⟨[], [], [⟨"u", "px", "fail", 0, 0⟩]⟩

/-- Witness for C4: with the due review excluded and the entire
candidate pool excluded, the recommendation is `none`. -/
theorem c4_witness :
    get_next_problem defaultSettings 10 dbC4w "u" "algebra"
      [⟨"p1", none, none⟩] ["px", "p1"] = none := by
  refine (c4_no_candidates_none defaultSettings 10 dbC4w "u" "algebra"
    [⟨"p1", none, none⟩] ["px", "p1"] ?_).mpr (by decide)
  intro p hp
  rw [show _get_due_review dbC4w "u" "algebra" 10 = some "px" from by decide] at hp
  cases hp
  exact Or.inr (by decide)

/-- Counterexample to C4 as stated: no due review exists, the fetched
pool `[p1]` is non-empty and fully removed by the exclusion filter;
the claim demands the first unfiltered candidate `p1`, but the code
returns `none`. -/
theorem c4_counterexample :
    get_next_problem defaultSettings 0 dbEmpty "u" "algebra"
      [⟨"p1", none, none⟩] ["p1"] = none ∧
    ([(⟨"p1", none, none⟩ : Problem)] ≠ []) ∧
    (none : Option String) ≠ some "p1" := by
  refine ⟨by decide, by decide, by decide⟩

/-! ### Mastery-store lemmas shared by C3, C5, C7 -/

/-- `applyEMA` only changes `ema`, `score` and `updated_at`, so the
`masteryKey` predicate is stable under it. -/
theorem masteryKey_applyEMA (succ : Bool) (now : ℤ) (u t : String) (m : Mastery) :
    masteryKey u t (applyEMA succ now m) = masteryKey u t m := rfl

/-- The freshly created row matches its own key. -/
theorem masteryKey_freshMastery (u t : String) (now : ℤ) :
    masteryKey u t (freshMastery u t now) = true := by
  simp [masteryKey, freshMastery]

/-- After `update_one_topic` for `(u, t)`, the first row for that key
is the EMA update of the previously fetched row (or of the default
row when none existed). -/
theorem find?_update_one_topic_self (now : ℤ) (db : DB) (u t : String) (succ : Bool) :
    (update_one_topic now db u t succ).masteries.find? (masteryKey u t) =
      some (applyEMA succ now
        ((db.masteries.find? (masteryKey u t)).getD (freshMastery u t now))) := by
  cases hfind : db.masteries.find? (masteryKey u t) with
  | some m0 =>
      simp only [update_one_topic, hfind]
      rw [find?_updateFirstL_same (fun a ha => (masteryKey_applyEMA succ now u t a) ▸ ha), hfind]
      rfl
  | none =>
      simp only [update_one_topic, hfind]
      rw [List.find?_append, hfind]
      simp [List.find?_cons_of_pos, masteryKey_applyEMA, masteryKey_freshMastery]

/-- `update_one_topic` for topic `t'` does not change the first row
for a different topic `t` of the same user. -/
theorem find?_update_one_topic_other (now : ℤ) (db : DB) (u t t' : String) (succ : Bool)
    (hne : t ≠ t') :
    (update_one_topic now db u t' succ).masteries.find? (masteryKey u t) =
      db.masteries.find? (masteryKey u t) := by
  cases hfind : db.masteries.find? (masteryKey u t') with
  | some m0 =>
      simp only [update_one_topic, hfind]
      apply find?_updateFirstL_other
      intro a ha
      have h1 : masteryKey u t a = false := by
        cases hkt : masteryKey u t a
        · rfl
        · exfalso
          have e1 := ((masteryKey_iff u t a).mp hkt).2.2
          have e2 := ((masteryKey_iff u t' a).mp ha).2.2
          exact hne (e1.symm.trans e2)
      exact ⟨h1, (masteryKey_applyEMA succ now u t a).trans h1⟩
  | none =>
      simp only [update_one_topic, hfind]
      rw [List.find?_append]
      have hnew : masteryKey u t (applyEMA succ now (freshMastery u t' now)) = false := by
        rw [masteryKey_applyEMA]
        cases hkt : masteryKey u t (freshMastery u t' now)
        · rfl
        · exfalso
          have e := ((masteryKey_iff u t (freshMastery u t' now)).mp hkt).2.2
          exact hne e.symm
      simp [hnew]

/-- `update_mastery` over a topic list not containing `t` does not
change the first row for `(u, t)`. -/
theorem find?_update_mastery_not_mem (now : ℤ) (u t : String) (succ : Bool) :
    ∀ (ts : List String) (db : DB), t ∉ ts →
      (update_mastery now db u ts succ).masteries.find? (masteryKey u t) =
        db.masteries.find? (masteryKey u t)
  | [], db, _ => rfl
  | t' :: ts, db, h => by
      have h1 : t ≠ t' := fun he => h (he ▸ List.mem_cons_self t' ts)
      have h2 : t ∉ ts := fun hm => h (List.mem_cons_of_mem t' hm)
      rw [show update_mastery now db u (t' :: ts) succ =
        update_mastery now (update_one_topic now db u t' succ) u ts succ from rfl]
      rw [find?_update_mastery_not_mem now u t succ ts _ h2]
      exact find?_update_one_topic_other now db u t t' succ h1

/-- For a duplicate-free topic list, the final row for each updated
topic is exactly one EMA step applied to the previously stored row
(or to the default row when none existed). -/
theorem find?_update_mastery_nodup (now : ℤ) (u : String) (succ : Bool) :
    ∀ (topics : List String) (db : DB), topics.Nodup → ∀ t ∈ topics,
      (update_mastery now db u topics succ).masteries.find? (masteryKey u t) =
        some (applyEMA succ now
          ((db.masteries.find? (masteryKey u t)).getD (freshMastery u t now)))
  | [], _, _, t, ht => absurd ht (List.not_mem_nil t)
  | t0 :: ts, db, hnd, t, ht => by
      rw [show update_mastery now db u (t0 :: ts) succ =
        update_mastery now (update_one_topic now db u t0 succ) u ts succ from rfl]
      rcases List.mem_cons.mp ht with h | h
      · subst h
        have hnm : t ∉ ts := (List.nodup_cons.mp hnd).1
        rw [find?_update_mastery_not_mem now u t succ ts _ hnm]
        exact find?_update_one_topic_self now db u t succ
      · have hne : t ≠ t0 := by
          intro he
          subst he
          exact (List.nodup_cons.mp hnd).1 h
        rw [find?_update_mastery_nodup now u succ ts _ (List.nodup_cons.mp hnd).2 t h]
        rw [find?_update_one_topic_other now db u t t0 succ hne]

/-! ### C3 -/

/-- The score/ema relation maintained by the code at `(u, t)`:
the first stored row for the key exists and its `score` is the
truncation `int(ema * 100)`. -/
def scoreInvAt (u t : String) (db : DB) : Prop :=
  ∃ m, db.masteries.find? (masteryKey u t) = some m ∧ m.score = pyInt (m.ema * 100)

/-- One `update_one_topic` step establishes the relation for its own
topic and preserves it for any other topic. -/
theorem scoreInvAt_step (now : ℤ) (u t t' : String) (succ : Bool) (db : DB)
    (h : scoreInvAt u t db) : scoreInvAt u t (update_one_topic now db u t' succ) := by
  by_cases he : t = t'
  · subst he
    exact ⟨_, find?_update_one_topic_self now db u t succ, rfl⟩
  · rw [scoreInvAt, find?_update_one_topic_other now db u t t' succ he]
    exact h

/-- The relation, once established, survives the rest of the topic
loop. -/
theorem scoreInvAt_fold (now : ℤ) (u t : String) (succ : Bool) :
    ∀ (ts : List String) (db : DB), scoreInvAt u t db →
      scoreInvAt u t (update_mastery now db u ts succ)
  | [], _, h => h
  | t' :: ts, db, h =>
      scoreInvAt_fold now u t succ ts _ (scoreInvAt_step now u t t' succ db h)

/-- C3 (amended): after every `update_mastery` call, every mastery
record touched (the stored row of each topic of the problem) has
`score = int(ema * 100)`, i.e. `ema * 100` truncated toward zero —
not `round(ema * 100)`: the two differ whenever the fractional part
of `ema * 100` is at least one half. -/
theorem c3_score_is_truncated_ema (now : ℤ) (db : DB) (u : String)
    (topics : List String) (succ : Bool) :
    ∀ t ∈ topics, ∃ m,
      (update_mastery now db u topics succ).masteries.find? (masteryKey u t) = some m ∧
      m.score = pyInt (m.ema * 100) := by
  have aux : ∀ (ts : List String) (d : DB), ∀ t ∈ ts,
      scoreInvAt u t (update_mastery now d u ts succ) := by
    intro ts
    induction ts with
    | nil => intro d t ht; cases ht
    | cons t0 ts ih =>
        intro d t ht
        rcases List.mem_cons.mp ht with h | h
        · subst h
          exact scoreInvAt_fold now u t succ ts _
            ⟨_, find?_update_one_topic_self now d u t succ, rfl⟩
        · exact ih (update_one_topic now d u t0 succ) t h
  exact aux topics db

/-- Witness for C3: a failed submission on a fresh store establishes
the truncation relation for its topic. -/
theorem c3_witness :
    ∃ m, (update_mastery 0 dbEmpty "u" ["t"] false).masteries.find?
        (masteryKey "u" "t") = some m ∧ m.score = pyInt (m.ema * 100) :=
  c3_score_is_truncated_ema 0 dbEmpty "u" ["t"] false "t" (List.mem_singleton.mpr rfl)

/-- Stored row for the C3 counterexample: `ema = 0.744` (reachable by
three straight successes from the fresh 0.5 prior), `score = 74`. -/
def mC3 : Mastery := ⟨"u", "topic", "t", 74, 93/125, 0⟩

/-- Store holding the C3 counterexample row. -/
def dbC3 : DB := ⟨[mC3], [], []⟩

/-- Counterexample to C3 as stated: a successful update moves the row
to `ema = 0.7952`, and the stored score is `int(79.52) = 79` while
`round(ema * 100) = 80` — the invariant `score = round(ema * 100)`
fails after this call. -/
theorem c3_counterexample :
    ∃ m, (update_mastery 0 dbC3 "u" ["t"] true).masteries.find?
        (masteryKey "u" "t") = some m ∧
      m.ema = 497/625 ∧ m.score = 79 ∧ round (m.ema * 100) = 80 ∧
      m.score ≠ round (m.ema * 100) := by
  have hfind : dbC3.masteries.find? (masteryKey "u" "t") = some mC3 := by
    rw [show dbC3.masteries = [mC3] from rfl]
    exact List.find?_cons_of_pos _ (by simp [masteryKey, mC3])
  have hv := find?_update_mastery_nodup 0 "u" true ["t"] dbC3 (by decide) "t"
    (List.mem_singleton.mpr rfl)
  rw [hfind] at hv
  refine ⟨applyEMA true 0 mC3, hv, ?_, ?_, ?_, ?_⟩
  · show (1:ℚ)/5 * 1 + (1 - 1/5) * mC3.ema = 497/625
    rw [show mC3.ema = 93/125 from rfl]
    norm_num
  · show pyInt ((1/5 * 1 + (1 - 1/5) * mC3.ema) * 100) = 79
    rw [show mC3.ema = (93:ℚ)/125 from rfl, pyInt]
    norm_num
  · show round (((1:ℚ)/5 * 1 + (1 - 1/5) * mC3.ema) * 100) = 80
    rw [show mC3.ema = (93:ℚ)/125 from rfl, round_eq]
    norm_num
  · show pyInt ((1/5 * 1 + (1 - 1/5) * mC3.ema) * 100) ≠
      round (((1:ℚ)/5 * 1 + (1 - 1/5) * mC3.ema) * 100)
    rw [show mC3.ema = (93:ℚ)/125 from rfl, pyInt, round_eq]
    norm_num

/-! ### C5 -/

/-- C5: each topic of the problem gets its mastery row
fetched-or-created (default `ema = 0.5`) and then updated by
`ema' = 0.2*outcome + 0.8*ema` with outcome 1 on success, 0 on
failure, with `score` recomputed from the new `ema`.  Stated for a
duplicate-free topic list (each topic updated once, as the claim
describes). -/
theorem c5_update_mastery_ema_step (now : ℤ) (db : DB) (u : String)
    (topics : List String) (succ : Bool) (hnd : topics.Nodup) :
    ∀ t ∈ topics,
      (db.masteries.find? (masteryKey u t) = none →
        ∃ m, (update_mastery now db u topics succ).masteries.find? (masteryKey u t) = some m ∧
          m.ema = 1/5 * (if succ then 1 else 0) + (1 - 1/5) * (1/2) ∧
          m.score = pyInt (m.ema * 100)) ∧
      (∀ m0, db.masteries.find? (masteryKey u t) = some m0 →
        ∃ m, (update_mastery now db u topics succ).masteries.find? (masteryKey u t) = some m ∧
          m.ema = 1/5 * (if succ then 1 else 0) + (1 - 1/5) * m0.ema ∧
          m.score = pyInt (m.ema * 100)) := by
  intro t ht
  have hv := find?_update_mastery_nodup now u succ topics db hnd t ht
  constructor
  · intro hnone
    rw [hnone] at hv
    exact ⟨_, hv, rfl, rfl⟩
  · intro m0 hm0
    rw [hm0] at hv
    exact ⟨_, hv, rfl, rfl⟩

/-- Witness for C5: the spec scenario — a failure on the never-seen
topic `recursion` yields `ema = 0.4` and `score = 40`. -/
theorem c5_witness :
    ∃ m, (update_mastery 0 dbEmpty "u" ["recursion"] false).masteries.find?
        (masteryKey "u" "recursion") = some m ∧ m.ema = 2/5 ∧ m.score = 40 := by
  obtain ⟨m, hm, he, hs⟩ := ((c5_update_mastery_ema_step 0 dbEmpty "u" ["recursion"] false
    (by decide)) "recursion" (List.mem_singleton.mpr rfl)).1 rfl
  refine ⟨m, hm, ?_, ?_⟩
  · rw [he]
    norm_num
  · rw [hs, he, pyInt]
    norm_num

/-! ### C7 -/

/-- The EMA update keeps the estimate inside the unit interval. -/
theorem applyEMA_ema_bounds (succ : Bool) (now : ℤ) (m : Mastery)
    (h0 : 0 ≤ m.ema) (h1 : m.ema ≤ 1) :
    0 ≤ (applyEMA succ now m).ema ∧ (applyEMA succ now m).ema ≤ 1 := by
  have he : (applyEMA succ now m).ema =
      1/5 * (if succ then 1 else 0) + (1 - 1/5) * m.ema := rfl
  rw [he]
  cases succ
  · constructor <;> simp <;> linarith
  · constructor <;> simp <;> linarith

/-- A single topic update keeps every stored `ema` in `[0, 1]`. -/
theorem emaInv_update_one_topic (now : ℤ) (db : DB) (u t : String) (succ : Bool)
    (h : ∀ m ∈ db.masteries, 0 ≤ m.ema ∧ m.ema ≤ 1) :
    ∀ m ∈ (update_one_topic now db u t succ).masteries, 0 ≤ m.ema ∧ m.ema ≤ 1 := by
  intro m hm
  cases hfind : db.masteries.find? (masteryKey u t) with
  | some m0 =>
      simp only [update_one_topic, hfind] at hm
      rcases mem_updateFirstL hm with hmem | ⟨b, hb, _, rfl⟩
      · exact h m hmem
      · exact applyEMA_ema_bounds succ now b (h b hb).1 (h b hb).2
  | none =>
      simp only [update_one_topic, hfind] at hm
      rcases List.mem_append.mp hm with hmem | hmem
      · exact h m hmem
      · rw [List.mem_singleton] at hmem
        subst hmem
        exact applyEMA_ema_bounds succ now _ (by norm_num [freshMastery])
          (by norm_num [freshMastery])

/-- A whole `update_mastery` call keeps every stored `ema` in `[0, 1]`. -/
theorem emaInv_update_mastery (now : ℤ) (u : String) (succ : Bool) :
    ∀ (topics : List String) (db : DB),
      (∀ m ∈ db.masteries, 0 ≤ m.ema ∧ m.ema ≤ 1) →
      ∀ m ∈ (update_mastery now db u topics succ).masteries, 0 ≤ m.ema ∧ m.ema ≤ 1
  | [], _, h => h
  | t :: ts, db, h =>
      emaInv_update_mastery now u succ ts _ (emaInv_update_one_topic now db u t succ h)

/-- C7: across any sequence of `update_mastery` calls (any users,
topics and outcomes), starting from any store whose stored `ema`
values lie in `[0, 1]` (in particular the empty store), every stored
`ema` remains in `[0, 1]` after every call. -/
theorem c7_ema_within_unit_interval (calls : List MCall) (db : DB)
    (h : ∀ m ∈ db.masteries, 0 ≤ m.ema ∧ m.ema ≤ 1) :
    ∀ m ∈ (applyCalls calls db).masteries, 0 ≤ m.ema ∧ m.ema ≤ 1 := by
  induction calls generalizing db with
  | nil => exact h
  | cons c cs ih =>
      exact ih _ (emaInv_update_mastery c.now c.user_id c.success c.topics db h)

/-- The row produced by one failed update on the empty store, used as
the concrete record of the C7 witness. -/
def mC7 : Mastery := ⟨"u", "topic", "t", 40, 2/5, 0⟩

/-- Witness for C7: after a concrete call sequence from the empty
store the resulting stored row is `mC7` and its `ema` lies in
`[0, 1]`. -/
theorem c7_witness :
    (applyCalls [⟨0, "u", ["t"], false⟩] dbEmpty).masteries = [mC7] ∧
    0 ≤ mC7.ema ∧ mC7.ema ≤ 1 := by
  have hlist : (applyCalls [⟨0, "u", ["t"], false⟩] dbEmpty).masteries = [mC7] := by
    show dbEmpty.masteries ++ [applyEMA false 0 (freshMastery "u" "t" 0)] = [mC7]
    rw [show dbEmpty.masteries = [] from rfl, List.nil_append]
    have : applyEMA false 0 (freshMastery "u" "t" 0) = mC7 := by
      show Mastery.mk "u" "topic" "t" (pyInt ((1/5 * 0 + (1 - 1/5) * (1/2)) * 100))
        (1/5 * 0 + (1 - 1/5) * (1/2)) 0 = mC7
      rw [mC7, Mastery.mk.injEq, pyInt]
      norm_num
    rw [this]
  have hb := c7_ema_within_unit_interval [⟨0, "u", ["t"], false⟩] dbEmpty
    (fun m hm => absurd hm (List.not_mem_nil m)) mC7
    (by rw [hlist]; exact List.mem_singleton.mpr rfl)
  exact ⟨hlist, hb.1, hb.2⟩
